import Mathlib

/-!
Verification of the extraction and normalization engine of the `yfp` crate
(`src/lib.rs`, `src/date_util.rs`).

The HTML layer is abstracted: a document is modelled as `Option (List (List String))`,
namely the list of rows of the first `tbody` element (each row the list of the
inner-HTML texts of its `td` cells), or `none` when the document has no `tbody`.
Machine floats are modelled as exact rationals: every numeric value reaching the
float slots comes from a decimal literal and every consumer either compares with
zero or truncates to an integer, so rational arithmetic is exact on all inputs
the theorems touch.  Rust's saturating `f64 as u64` cast is modelled explicitly.

Date arithmetic follows chrono's proleptic Gregorian calendar.  The
`"%Y-%m-%d"` parser models chrono's full leniency — whitespace is skipped
before every numeric field, month and day may be unpadded, the year may be
one to four digits or carry an explicit sign with an unbounded digit run —
together with chrono's supported year range [-262144, 262143].  The
timestamp-to-string direction is modelled on days from 0000-01-01 up to
262143-12-31: chrono additionally renders negative years, but deserialized
timestamps are clamped non-negative by the code and no claim renders a
pre-1970 epoch.  The `"%b %-d,%Y"` parser is modelled on unsigned years of up
to four digits (chrono's `%Y` would additionally accept an explicitly signed
year there; the crate's date cells never carry one and no claim exercises it).
-/

namespace Yfp

/-! ## Gregorian calendar arithmetic (model of chrono's `NaiveDate`/`DateTime`) -/

/-- Proleptic Gregorian leap year predicate. -/
def isLeap (y : ℕ) : Bool :=
  y % 4 == 0 && (y % 100 != 0 || y % 400 == 0)

/-- Length of month `m` (1-12) of year `y`; 0 for out-of-range months. -/
def daysInMonth (y m : ℕ) : ℕ :=
  if m = 1 then 31 else if m = 2 then (if isLeap y then 29 else 28)
  else if m = 3 then 31 else if m = 4 then 30 else if m = 5 then 31
  else if m = 6 then 30 else if m = 7 then 31 else if m = 8 then 31
  else if m = 9 then 30 else if m = 10 then 31 else if m = 11 then 30
  else if m = 12 then 31 else 0

/-- Validity of a calendar triple, as enforced by chrono when resolving a parse. -/
def validYMD (y m d : ℕ) : Bool :=
  1 ≤ m && m ≤ 12 && 1 ≤ d && d ≤ daysInMonth y m

/-- Leap year predicate on signed years (chrono's year is a signed `i32`; its
leap test only compares remainders with zero, where Rust's truncating and
Lean's Euclidean remainder agree). -/
def isLeapZ (y : ℤ) : Bool :=
  y % 4 == 0 && (y % 100 != 0 || y % 400 == 0)

/-- Length of month `m` (1-12) of signed year `y`; 0 for out-of-range months. -/
def daysInMonthZ (y : ℤ) (m : ℕ) : ℕ :=
  if m = 1 then 31 else if m = 2 then (if isLeapZ y then 29 else 28)
  else if m = 3 then 31 else if m = 4 then 30 else if m = 5 then 31
  else if m = 6 then 30 else if m = 7 then 31 else if m = 8 then 31
  else if m = 9 then 30 else if m = 10 then 31 else if m = 11 then 30
  else if m = 12 then 31 else 0

/-- Validity of a signed calendar triple, as enforced by chrono when resolving
a `"%Y-%m-%d"` parse (`NaiveDate::from_ymd_opt`): month and day bounds plus
chrono's supported year range. -/
def validYMDZ (y : ℤ) (m d : ℕ) : Bool :=
  1 ≤ m && m ≤ 12 && 1 ≤ d && d ≤ daysInMonthZ y m &&
    -262144 ≤ y && y ≤ 262143

/-- March-anchored month code: March ↦ 0, …, December ↦ 9, January ↦ 10, February ↦ 11. -/
def mpOf (m : ℕ) : ℕ := if 2 < m then m - 3 else m + 9

/-- Day offset of the first day of March-month `mp` within a March-anchored year. -/
def marchBase (mp : ℕ) : ℕ := (153 * mp + 2) / 5

/-- Zero-based day-of-March-year of the calendar day `(m, d)`. -/
def doyOf (m d : ℕ) : ℕ := marchBase (mpOf m) + (d - 1)

/-- Days before March-year `k` within a 400-year era (`k ≤ 400`). -/
def dbm (k : ℕ) : ℕ := 365 * k + k / 4 - k / 100

/-- Day count of the calendar day since March 1 of year -400 (the anchor keeps
all supported dates in `ℕ`). -/
def dayNumber : ℕ × ℕ × ℕ → ℕ
  | (y, m, d) =>
    let my := y + 400 - (if m ≤ 2 then 1 else 0)
    (my / 400) * 146097 + dbm (my % 400) + doyOf m d

/-- The anchor offset: `dayNumber (1970, 1, 1)`. -/
def anchorOff : ℕ := 865565

/-- Signed day count since the Unix epoch 1970-01-01. -/
def epochDay (t : ℕ × ℕ × ℕ) : ℤ := (dayNumber t : ℤ) - anchorOff

/-- Day count for signed-year triples, obtained by shifting the year by 656
eras (656·400 = 262400 years) into the `ℕ`-anchored count; well-defined on
chrono's whole year range (`y ≥ -262144`). -/
def dayNumberZ : ℤ × ℕ × ℕ → ℕ
  | (y, m, d) => dayNumber ((y + 262400).toNat, m, d)

/-- Signed day count since the Unix epoch for signed-year triples. -/
def epochDayZ (t : ℤ × ℕ × ℕ) : ℤ :=
  (dayNumberZ t : ℤ) - (anchorOff + 656 * 146097)

/-- Year-of-era from day-of-era (`0 ≤ doe < 146097`). -/
def yoeOf (doe : ℕ) : ℕ :=
  (doe - doe / 1460 + doe / 36524 - doe / 146096) / 365

/-- March-month code from day-of-March-year. -/
def mpOfDoy (doy : ℕ) : ℕ := (5 * doy + 2) / 153

/-- Day-of-month from day-of-March-year. -/
def dOfDoy (doy : ℕ) : ℕ := doy - marchBase (mpOfDoy doy) + 1

/-- Calendar month from day-of-March-year. -/
def mOfDoy (doy : ℕ) : ℕ :=
  if mpOfDoy doy < 10 then mpOfDoy doy + 3 else mpOfDoy doy - 9

/-- Inverse of `epochDay`: the calendar day containing epoch day `z`
(valid for days from 0000-01-01 on; model of chrono's day-to-date conversion,
structured after the standard civil-from-days algorithm). -/
def civilFromDays (z : ℤ) : ℤ × ℕ × ℕ :=
  let n := (z + anchorOff).toNat
  let doe := n % 146097
  let doy := doe - dbm (yoeOf doe)
  (((n / 146097 * 400 + yoeOf doe + (if mOfDoy doy ≤ 2 then 1 else 0) : ℕ) : ℤ) - 400,
   mOfDoy doy, dOfDoy doy)

/-- Length (in days) of March-year `k` of an era: 365, or 366 when the
following calendar year (which contributes the February) is a leap year. -/
def mlen (k : ℕ) : ℕ :=
  365 + (if (k + 1) % 4 = 0 ∧ ((k + 1) % 100 ≠ 0 ∨ (k + 1) % 400 = 0) then 1 else 0)

/-- Maximal length of March-month `mp` (February gets its leap-year maximum). -/
def marchLenMax (mp : ℕ) : ℕ :=
  [31, 30, 31, 30, 31, 31, 30, 31, 30, 31, 31, 29].getD mp 0

/-! ## Character-level helpers -/

/-- ASCII digit test (the digits accepted by chrono's numeric fields). -/
def charIsDigit (c : Char) : Bool := 48 ≤ c.toNat && c.toNat ≤ 57

/-- Numeric value of an ASCII digit. -/
def dVal (c : Char) : ℕ := c.toNat - 48

/-- Drop leading whitespace (chrono skips whitespace before numeric fields and
at `Space` items of a format string). -/
def skipWS : List Char → List Char
  | [] => []
  | c :: cs => if c.isWhitespace then skipWS cs else c :: cs

/-- Read exactly `k` ASCII digits, most significant first, onto accumulator `acc`. -/
def readFixed : ℕ → ℕ → List Char → Option (ℕ × List Char)
  | 0, acc, cs => some (acc, cs)
  | _ + 1, _, [] => none
  | k + 1, acc, c :: cs =>
    if charIsDigit c then readFixed k (acc * 10 + dVal c) cs else none

/-- Read one or two ASCII digits (chrono's two-wide numeric fields such as
month and day accept an unpadded single digit). -/
def read12 : List Char → Option (ℕ × List Char)
  | [] => none
  | c :: cs =>
    if charIsDigit c then
      match cs with
      | c2 :: cs2 =>
        if charIsDigit c2 then some (dVal c * 10 + dVal c2, cs2)
        else some (dVal c, cs)
      | [] => some (dVal c, [])
    else none

/-- Read the remaining digits of a year whose first digit was already consumed,
up to `fuel` more digits (the model caps years at 4 digits). -/
def readYearGo : ℕ → ℕ → List Char → ℕ × List Char
  | 0, acc, cs => (acc, cs)
  | _ + 1, acc, [] => (acc, [])
  | fuel + 1, acc, c :: cs =>
    if charIsDigit c then readYearGo fuel (acc * 10 + dVal c) cs else (acc, c :: cs)

/-- Read a year of one to four ASCII digits. -/
def readYear : List Char → Option (ℕ × List Char)
  | [] => none
  | c :: cs => if charIsDigit c then some (readYearGo 3 (dVal c) cs) else none

/-- Read a maximal run of ASCII digits onto the accumulator (chrono's
unbounded numeric scan, used after an explicit year sign). -/
def readDigits : ℕ → List Char → ℕ × List Char
  | acc, [] => (acc, [])
  | acc, c :: cs =>
    if charIsDigit c then readDigits (acc * 10 + dVal c) cs else (acc, c :: cs)

/-- Read chrono's `%Y` year field: an explicit `-` or `+` followed by an
unbounded digit run, or an unsigned run of one to four digits (chrono honours
the field width 4 only when no sign is written).  The caller has already
skipped leading whitespace. -/
def readYearSigned : List Char → Option (ℤ × List Char)
  | [] => none
  | c :: cs =>
    if c = '-' then
      match cs with
      | [] => none
      | c2 :: cs2 =>
        if charIsDigit c2 then
          match readDigits (dVal c2) cs2 with
          | (v, rest) => some (-(v : ℤ), rest)
        else none
    else if c = '+' then
      match cs with
      | [] => none
      | c2 :: cs2 =>
        if charIsDigit c2 then
          match readDigits (dVal c2) cs2 with
          | (v, rest) => some ((v : ℤ), rest)
        else none
    else if charIsDigit c then
      match readYearGo 3 (dVal c) cs with
      | (v, rest) => some ((v : ℤ), rest)
    else none

/-- Consume the lowercase pattern `p` from the input, ASCII-case-insensitively. -/
def eatCI : List Char → List Char → Option (List Char)
  | [], cs => some cs
  | _ :: _, [] => none
  | p :: ps, c :: cs => if c.toLower == p then eatCI ps cs else none

/-- Month-name table: full name, abbreviated name, month number.  chrono's `%b`
accepts both full and abbreviated names, case-insensitively, trying the full
name first. -/
def monthTable : List (List Char × List Char × ℕ) :=
  [("january".data, "jan".data, 1), ("february".data, "feb".data, 2),
   ("march".data, "mar".data, 3), ("april".data, "apr".data, 4),
   ("may".data, "may".data, 5), ("june".data, "jun".data, 6),
   ("july".data, "jul".data, 7), ("august".data, "aug".data, 8),
   ("september".data, "sep".data, 9), ("october".data, "oct".data, 10),
   ("november".data, "nov".data, 11), ("december".data, "dec".data, 12)]

/-- Try to consume a month name from the input using the given table. -/
def eatMonthFrom : List (List Char × List Char × ℕ) → List Char → Option (ℕ × List Char)
  | [], _ => none
  | (long, short, n) :: rest, cs =>
    match eatCI long cs with
    | some cs2 => some (n, cs2)
    | none =>
      match eatCI short cs with
      | some cs2 => some (n, cs2)
      | none => eatMonthFrom rest cs

/-! ## The `"%Y-%m-%d"` and `"%b %-d,%Y"` parsers (models of
`NaiveDate::parse_from_str` at the two format strings used by the crate) -/

/-- Parse a `"%Y-%m-%d"` date into a valid signed calendar triple.  Model of
`NaiveDate::parse_from_str(s, "%Y-%m-%d")`: chrono skips whitespace before
every numeric field, reads a year (one to four digits, or a signed unbounded
digit run), a literal `-`, a month of one or two digits, a literal `-`, a day
of one or two digits, requires the input to be exhausted, and resolves the
fields through `from_ymd_opt`, which checks calendar validity and chrono's
year range. -/
def parseYMDList (cs : List Char) : Option (ℤ × ℕ × ℕ) :=
  match readYearSigned (skipWS cs) with
  | none => none
  | some (y, cs1) =>
    match cs1 with
    | '-' :: cs2 =>
      match read12 (skipWS cs2) with
      | none => none
      | some (m, cs3) =>
        match cs3 with
        | '-' :: cs4 =>
          match read12 (skipWS cs4) with
          | none => none
          | some (d, cs5) =>
            if cs5 = [] && validYMDZ y m d then some (y, m, d) else none
        | _ => none
    | _ => none

/-- String wrapper for `parseYMDList`. -/
def parseYMD (s : String) : Option (ℤ × ℕ × ℕ) := parseYMDList s.data

/-- Spec-side characterization of the canonical zero-padded `"YYYY-MM-DD"`
form named by the claims: exactly four digits, a dash, two digits, a dash, two
digits, naming a valid calendar date.  The program's parser above accepts
strictly more strings than this form. -/
def canonicalYMDList (cs : List Char) : Option (ℕ × ℕ × ℕ) :=
  match readFixed 4 0 cs with
  | none => none
  | some (y, cs1) =>
    match cs1 with
    | '-' :: cs2 =>
      match readFixed 2 0 cs2 with
      | none => none
      | some (m, cs3) =>
        match cs3 with
        | '-' :: cs4 =>
          match readFixed 2 0 cs4 with
          | none => none
          | some (d, cs5) =>
            if cs5 = [] && validYMD y m d then some (y, m, d) else none
        | _ => none
    | _ => none

/-- String-level test for the canonical `"YYYY-MM-DD"` form. -/
def isCanonicalYMD (s : String) : Bool := (canonicalYMDList s.data).isSome

/-- Parse `"Mon D,YYYY"` into a valid calendar triple.  Model of
`NaiveDate::parse_from_str(s, "%b %-d,%Y")`: month name (full or abbreviated,
case-insensitive), optional whitespace, 1-2 digit day, a literal comma, optional
whitespace (chrono skips whitespace before a numeric field, which is why the
crate's own test parses `"Dec 20, 2024"`), then a year of up to four digits
(chrono's `%Y` would additionally accept an explicitly signed year; the
scraped date cells never carry one and no claim exercises it). -/
def parseCompactList (cs : List Char) : Option (ℕ × ℕ × ℕ) :=
  match eatMonthFrom monthTable cs with
  | none => none
  | some (m, cs1) =>
    match read12 (skipWS cs1) with
    | none => none
    | some (d, cs2) =>
      match cs2 with
      | ',' :: cs3 =>
        match readYear (skipWS cs3) with
        | none => none
        | some (y, cs4) =>
          if cs4 = [] && validYMD y m d then some (y, m, d) else none
      | _ => none

/-- String wrapper for `parseCompactList`. -/
def parseCompact (s : String) : Option (ℕ × ℕ × ℕ) := parseCompactList s.data

/-! ## Error taxonomy -/

/-- Failure modes of the engine: the three error conditions of the spec plus an
explicit constructor modelling a Rust panic (abort). -/
inductive PError
  | missingTable
  | dateParse
  | formatErr
  | panic
  deriving DecidableEq, Repr

/-- Decidable equality of results, so that theorems about concrete inputs can
be settled by evaluation. -/
instance {ε α : Type} [DecidableEq ε] [DecidableEq α] : DecidableEq (Except ε α) :=
  fun x y =>
  match x, y with
  | .ok a, .ok b =>
    if h : a = b then .isTrue (by rw [h]) else .isFalse (by simp [h])
  | .ok _, .error _ => .isFalse (by simp)
  | .error _, .ok _ => .isFalse (by simp)
  | .error a, .error b =>
    if h : a = b then .isTrue (by rw [h]) else .isFalse (by simp [h])

/-! ## `date_util.rs` -/

/-- Month names as rendered by chrono's `%b` (months count from 1; out-of-range
months, which no supported code path produces, fall back to a letter string). -/
def monthAbbrevName (m : ℕ) : String :=
  ["Jan", "Feb", "Mar", "Apr", "May", "Jun",
   "Jul", "Aug", "Sep", "Oct", "Nov", "Dec"].getD (m - 1) "Xxx"

/-- Month names as rendered by chrono's `%B`. -/
def monthLongName (m : ℕ) : String :=
  ["January", "February", "March", "April", "May", "June", "July", "August",
   "September", "October", "November", "December"].getD (m - 1) "Xxx"

/-- Year as rendered by chrono's `%Y`: zero-padded to four digits (the model's
supported years are non-negative; chrono additionally prefixes years above
9999 with a plus sign, which no reachable code path renders). -/
def pad4 (y : ℤ) : String :=
  if y < 0 then toString y
  else
    let n := y.toNat
    if n < 10 then "000" ++ toString n
    else if n < 100 then "00" ++ toString n
    else if n < 1000 then "0" ++ toString n
    else toString n

/-- Rendering of a calendar triple in chrono's `"%b %-d, %Y"` format. -/
def formatDisplay : ℤ × ℕ × ℕ → String
  | (y, m, d) => monthAbbrevName m ++ " " ++ toString d ++ ", " ++ pad4 y

/-- Smallest epoch day of the model's supported range (0000-01-01). -/
def MIN_DAY : ℤ := -719528

/-- Largest epoch day of the model's supported range (262143-12-31, chrono's
maximum date). -/
def MAX_DAY : ℤ := 95026601

/-- Model of `timestamp_to_date` (`date_util.rs:49-54`): interpret the argument
as epoch milliseconds (`DateTime::from_timestamp_millis`), fail when out of
range, and format the UTC calendar day as `"%b %-d, %Y"`. -/
def timestamp_to_date (ms : ℤ) : Except PError String :=
  if MIN_DAY ≤ Int.ediv ms 86400000 then
    if Int.ediv ms 86400000 ≤ MAX_DAY then
      .ok (formatDisplay (civilFromDays (Int.ediv ms 86400000)))
    else .error .formatErr
  else .error .formatErr

/-- Model of `date_string_to_timestamp` (`date_util.rs:57-61`): parse
`"Mon D,YYYY"` and return epoch seconds of UTC midnight. -/
def date_string_to_timestamp (s : String) : Except PError ℤ :=
  match parseCompact s with
  | none => .error .dateParse
  | some t => .ok (86400 * epochDay t)

/-- Model of `date_to_timestamp` (`date_util.rs:64-68`): parse `"%Y-%m-%d"`
and return epoch seconds of UTC midnight. -/
def date_to_timestamp (s : String) : Except PError ℤ :=
  match parseYMD s with
  | none => .error .dateParse
  | some t => .ok (86400 * epochDayZ t)

/-- Model of `human_readable_date` (`date_util.rs:71-82`): parse `"%Y-%m-%d"`
and render `"{full month} {day}, {year}"` with no zero padding (`toString` on
`ℤ` matches Rust's `i32` `Display` on chrono's year range). -/
def human_readable_date (s : String) : Except PError String :=
  match parseYMD s with
  | none => .error .dateParse
  | some (y, m, d) =>
    .ok (monthLongName m ++ " " ++ toString d ++ ", " ++ toString y)

/-- Model of the tagged date value `Date` (`date_util.rs:5-9`): either epoch
seconds held as a `u64`, or a human-readable string. -/
inductive Date
  | Timestamp (ts : ℕ)
  | Human (s : String)
  deriving DecidableEq, Repr

/-- Reinterpret a `u64` bit pattern as an `i64` (the `timestamp as i64` cast
inside `timestamp_to_date`). -/
def i64OfU64 (n : ℕ) : ℤ :=
  if n < 2 ^ 63 then (n : ℤ) else (n : ℤ) - 2 ^ 64

/-- Model of `Serialize for Date` (`date_util.rs:17-33`): a raw timestamp is
multiplied by 1000 (wrapping `u64` arithmetic) and rendered through
`timestamp_to_date`; a human string is emitted unchanged. -/
def serializeDate : Date → Except PError String
  | .Timestamp ts => timestamp_to_date (i64OfU64 (ts * 1000 % 2 ^ 64))
  | .Human s => .ok s

/-- Model of `Deserialize for Date` (`date_util.rs:35-46`): the string goes
through the `"%Y-%m-%d"` parse; the parsed epoch is clamped to non-negative
and stored as a raw timestamp. -/
def deserializeDate (s : String) : Except PError Date :=
  match date_to_timestamp s with
  | .error _ => .error .dateParse
  | .ok ts => .ok (.Timestamp (max ts 0).toNat)

/-! ## `lib.rs`: data model -/

/-- Saturating-truncating `f64 as u64` cast (Rust semantics: truncate toward
zero, clamp to `[0, u64::MAX]`), on the exact rational carried by the float. -/
def ratToU64 (q : ℚ) : ℕ :=
  if q < 0 then 0 else min ⌊q⌋.toNat (2 ^ 64 - 1)

/-- Model of the price-bar record `OHLCV` (`lib.rs:19-29`). -/
structure OHLCV where
  date : Date
  open_ : ℚ
  high : ℚ
  low : ℚ
  close : ℚ
  adj_close : ℚ
  volume : ℕ
  deriving DecidableEq, Repr

/-- Model of `OHLCV::insert` (`lib.rs:31-41`): fill every field from the 7-slot
row buffer; slot 0 and slot 6 go through the `as u64` cast. -/
def OHLCV.insert (_o : OHLCV) (sli : List ℚ) : OHLCV :=
  { date := .Timestamp (ratToU64 (sli.getD 0 0))
    open_ := sli.getD 1 0
    high := sli.getD 2 0
    low := sli.getD 3 0
    close := sli.getD 4 0
    adj_close := sli.getD 5 0
    volume := ratToU64 (sli.getD 6 0) }

/-- The all-zero default record (`#[derive(Default)]`). -/
def OHLCV.default : OHLCV :=
  { date := .Timestamp 0, open_ := 0, high := 0, low := 0, close := 0,
    adj_close := 0, volume := 0 }

/-- Sampling frequency (`lib.rs:43-48`). -/
inductive Frequency
  | daily
  | weekly
  | monthly
  deriving DecidableEq, Repr

/-! ## `lib.rs`: capacity estimator -/

/-- Model of `get_array_size_for_frequency` (`lib.rs:181-197`): parse both
bounds as `"%Y-%m-%d"`, then return `num_days().max(0)` for daily,
`num_weeks().max(0)` for weekly (`num_weeks` truncates toward zero, matching
`i64` division), and no estimate for monthly. -/
def get_array_size_for_frequency (freq : Frequency) (start endStr : String) :
    Except PError (Option ℕ) :=
  match parseYMD start with
  | none => .error .dateParse
  | some s =>
    match parseYMD endStr with
    | none => .error .dateParse
    | some e =>
      let diff : ℤ := (dayNumberZ e : ℤ) - (dayNumberZ s : ℤ)
      .ok (match freq with
        | .daily => some (max diff 0).toNat
        | .weekly => some (max (diff.tdiv 7) 0).toNat
        | .monthly => none)

/-! ## `lib.rs`: Rust `f64` literal parser (for the numeric cells) -/

/-- Digit run to a natural number. -/
def digsVal (ds : List Char) : ℕ := ds.foldl (fun a c => a * 10 + dVal c) 0

/-- Parse the exponent suffix of a float literal (empty input means no
exponent); returns the signed exponent, or `none` when malformed. -/
def parseExp : List Char → Option ℤ
  | [] => some 0
  | c :: cs =>
    if c = 'e' ∨ c = 'E' then
      match cs with
      | '+' :: cs2 =>
        let (ds, rest) := List.span charIsDigit cs2
        if ds ≠ [] ∧ rest = [] then some (digsVal ds) else none
      | '-' :: cs2 =>
        let (ds, rest) := List.span charIsDigit cs2
        if ds ≠ [] ∧ rest = [] then some (-(digsVal ds : ℤ)) else none
      | _ =>
        let (ds, rest) := List.span charIsDigit cs
        if ds ≠ [] ∧ rest = [] then some (digsVal ds) else none
    else none

/-- Parse the unsigned mantissa `digits[.digits] | .digits` followed by an
optional exponent. -/
def parseMantissa (cs : List Char) : Option ℚ :=
  let (ip, cs1) := List.span charIsDigit cs
  match cs1 with
  | '.' :: cs2 =>
    let (fp, cs3) := List.span charIsDigit cs2
    if ip = [] ∧ fp = [] then none
    else
      match parseExp cs3 with
      | none => none
      | some e =>
        some (((digsVal ip : ℚ) + (digsVal fp : ℚ) / 10 ^ fp.length) * 10 ^ e)
  | _ =>
    if ip = [] then none
    else
      match parseExp cs1 with
      | none => none
      | some e => some ((digsVal ip : ℚ) * 10 ^ e)

/-- Model of Rust's `str::parse::<f64>` on the finite decimal grammar
(`[+-]? (digits [. digits?] | . digits) ([eE][+-]?digits)?`), yielding the
exact rational value.  The non-finite literals (`inf`, `nan`, …) accepted by
Rust are not modelled; no claim exercises them. -/
def parseF64 (cs : List Char) : Option ℚ :=
  match cs with
  | '+' :: r => parseMantissa r
  | '-' :: r => (parseMantissa r).map Neg.neg
  | r => parseMantissa r

/-- Strip every comma (`text.replace(",", "")`, `lib.rs:163`). -/
def stripCommas (s : String) : List Char := s.data.filter (· ≠ ',')

/-! ## `lib.rs`: table extraction engine -/

/-- Model of the per-row cell loop (`lib.rs:162-170`): scan the cells after the
date cell positionally; a cell whose comma-stripped text parses as a float
clears the `empty` flag and is written to slot `i + 1` of the 7-slot buffer —
when `i + 1` is out of bounds the write panics (`.error .panic`), which is
exactly the behaviour of `ohlcv_vec[i + 1]` on a `[f64; 7]`. -/
def scanCells (buf : List ℚ) (empty : Bool) (i : ℕ) :
    List String → Except PError (List ℚ × Bool)
  | [] => .ok (buf, empty)
  | c :: cs =>
    match parseF64 (stripCommas c) with
    | none => scanCells buf empty (i + 1) cs
    | some v =>
      if i + 1 < 7 then scanCells (buf.set (i + 1) v) false (i + 1) cs
      else .error .panic

/-- The date value read from a row's first cell: the compact-parse timestamp,
or 0 on failure (`unwrap_or_default`, `lib.rs:148-154`). -/
def dateValue (c : String) : ℤ :=
  match date_string_to_timestamp c with
  | .ok t => t
  | .error _ => 0

/-- Model of one iteration of the row loop (`lib.rs:142-176`): read the first
cell through `date_string_to_timestamp` (defaulting to 0 on a missing cell or a
parse failure), drop the row when the date is zero, otherwise scan the
remaining cells and emit a record unless every numeric slot failed to parse. -/
def processRow (cells : List String) : Except PError (Option OHLCV) :=
  match cells with
  | [] => .ok none
  | c :: rest =>
    if dateValue c = 0 then .ok none
    else
      match scanCells ((List.replicate 7 (0 : ℚ)).set 0 (dateValue c : ℚ)) true 0 rest with
      | .error e => .error e
      | .ok (buf, empty) =>
        if empty then .ok none
        else .ok (some (OHLCV.default.insert buf))

/-- Fold `processRow` over the rows in document order, accumulating records. -/
def scanRows : List (List String) → List OHLCV → Except PError (List OHLCV)
  | [], acc => .ok acc
  | r :: rs, acc =>
    match processRow r with
    | .error e => .error e
    | .ok none => scanRows rs acc
    | .ok (some rec) => scanRows rs (acc ++ [rec])

/-- Model of `parse_html` (`lib.rs:116-179`).  The document is abstracted as
the rows of its first `tbody` (`none` when no `tbody` exists); `today` is the
ambient `Local::now()` date string used when `endOpt` is absent.  The selector
construction always succeeds and is omitted.  The capacity estimate sizes the
output buffer only, so the model binds it and discards it. -/
def parse_html (doc : Option (List (List String))) (freq : Frequency)
    (start : String) (endOpt : Option String) (today : String) :
    Except PError (List OHLCV) :=
  match doc with
  | none => .error .missingTable
  | some rows =>
    let endStr := endOpt.getD today
    match get_array_size_for_frequency freq start endStr with
    | .error e => .error e
    | .ok _cap => scanRows rows []

/-! ## Spec-side characterization of calendar-day counting -/

/-- Spec-side successor of a calendar day (used to state, independently of
`dayNumber`, that the capacity estimator counts whole calendar days). -/
def nextCalendarDay : ℕ × ℕ × ℕ → ℕ × ℕ × ℕ
  | (y, m, d) =>
    if d < daysInMonth y m then (y, m, d + 1)
    else if m < 12 then (y, m + 1, 1)
    else (y + 1, 1, 1)

end Yfp

namespace Yfp

/-- `dbm` is monotone. -/
lemma dbm_mono {a b : ℕ} (h : a ≤ b) : dbm a ≤ dbm b := by
  unfold dbm
  have h1 : a / 4 ≤ b / 4 := Nat.div_le_div_right h
  have h2 : a / 100 ≤ b / 100 := Nat.div_le_div_right h
  have h3 : b / 100 ≤ a / 100 + (b - a) := by omega
  omega

/-- The year-of-era numerator is monotone. -/
lemma numer_mono {a b : ℕ} (h : a ≤ b) :
    a - a / 1460 + a / 36524 - a / 146096 ≤ b - b / 1460 + b / 36524 - b / 146096 := by
  omega

set_option maxHeartbeats 1000000 in
set_option maxRecDepth 4000 in
/-- Endpoint checks for year-of-era recovery, one pair per year of an era. -/
lemma yoe_endpoints : ∀ k < 400,
    365 * k ≤ (dbm k - dbm k / 1460 + dbm k / 36524 - dbm k / 146096) ∧
    ((dbm k + mlen k - 1) - (dbm k + mlen k - 1) / 1460 + (dbm k + mlen k - 1) / 36524
      - (dbm k + mlen k - 1) / 146096) < 365 * (k + 1) := by
  decide

/-- Day counts of consecutive March-years tile the era. -/
lemma dbm_add_mlen {k : ℕ} (h : k < 399) : dbm k + mlen k = dbm (k + 1) := by
  unfold dbm mlen; split_ifs <;> omega

/-- A March-year ends within its era's 146097 days. -/
lemma dbm_mlen_le {k : ℕ} (h : k < 400) : dbm k + mlen k ≤ 146097 := by
  rcases Nat.lt_or_ge k 399 with h' | h'
  · calc dbm k + mlen k = dbm (k + 1) := dbm_add_mlen h'
    _ ≤ dbm 399 := dbm_mono (by omega)
    _ ≤ 146097 := by norm_num [dbm]
  · have hk : k = 399 := by omega
    subst hk
    norm_num [dbm, mlen]

/-- Year-of-era recovery: `yoeOf` undoes the `dbm`/day-of-year decomposition. -/
lemma yoeOf_eq {k j : ℕ} (hk : k < 400) (hj : j < mlen k) : yoeOf (dbm k + j) = k := by
  obtain ⟨hlo, hhi⟩ := yoe_endpoints k hk
  have m1 := numer_mono (Nat.le_add_right (dbm k) j)
  have m2 := numer_mono (show dbm k + j ≤ dbm k + mlen k - 1 by omega)
  unfold yoeOf
  omega

set_option maxRecDepth 4000 in
/-- March-month recovery from day-of-March-year. -/
lemma mpOfDoy_eq : ∀ mp < 12, ∀ e < 31, e < marchLenMax mp →
    mpOfDoy (marchBase mp + e) = mp := by
  decide

/-- Day-of-month recovery from day-of-March-year. -/
lemma dOfDoy_eq {mp e : ℕ} (hmp : mp < 12) (he : e < marchLenMax mp) :
    dOfDoy (marchBase mp + e) = e + 1 := by
  have he31 : e < 31 := by
    have : marchLenMax mp ≤ 31 := by interval_cases mp <;> norm_num [marchLenMax]
    omega
  unfold dOfDoy
  rw [mpOfDoy_eq mp hmp e he31 he]
  omega

/-- Calendar-month recovery from day-of-March-year. -/
lemma mOfDoy_eq {m e : ℕ} (h1 : 1 ≤ m) (h2 : m ≤ 12) (he : e < marchLenMax (mpOf m)) :
    mOfDoy (marchBase (mpOf m) + e) = m := by
  have hmp : mpOf m < 12 := by unfold mpOf; split_ifs <;> omega
  have he31 : e < 31 := by
    have : marchLenMax (mpOf m) ≤ 31 := by
      interval_cases h : (mpOf m) <;> norm_num [marchLenMax]
    omega
  unfold mOfDoy
  rw [mpOfDoy_eq _ hmp e he31 he]
  unfold mpOf
  split_ifs <;> omega

/-- Every month has at most 31 days. -/
lemma daysInMonth_le_31 {y m : ℕ} (h1 : 1 ≤ m) (h2 : m ≤ 12) : daysInMonth y m ≤ 31 := by
  interval_cases m <;> norm_num [daysInMonth] <;> cases isLeap y <;> norm_num

/-- Every month in range has at least one day. -/
lemma daysInMonth_pos {y m : ℕ} (h1 : 1 ≤ m) (h2 : m ≤ 12) : 1 ≤ daysInMonth y m := by
  interval_cases m <;> norm_num [daysInMonth] <;> cases isLeap y <;> norm_num

/-- A month never exceeds the maximal length of its March-month. -/
lemma daysInMonth_le_marchLenMax {y m : ℕ} (h1 : 1 ≤ m) (h2 : m ≤ 12) :
    daysInMonth y m ≤ marchLenMax (mpOf m) := by
  interval_cases m <;> norm_num [daysInMonth, mpOf, marchLenMax] <;>
    cases isLeap y <;> norm_num

/-- A valid day-of-month stays below the maximal length of its March-month. -/
lemma dm1_lt_marchLenMax {y m d : ℕ} (h1 : 1 ≤ m) (h2 : m ≤ 12) (h3 : 1 ≤ d)
    (h4 : d ≤ daysInMonth y m) : d - 1 < marchLenMax (mpOf m) := by
  have := daysInMonth_le_marchLenMax (y := y) h1 h2
  omega

/-- The day-of-March-year of a valid date is below the length of its March-year
(the only delicate case is February 29, whose validity forces the leap-year
condition of `mlen` at the corresponding year-of-era). -/
lemma doy_lt_mlen {y m d : ℕ} (h1 : 1 ≤ m) (h2 : m ≤ 12) (h3 : 1 ≤ d)
    (h4 : d ≤ daysInMonth y m) :
    doyOf m d < mlen ((y + 400 - (if m ≤ 2 then 1 else 0)) % 400) := by
  have hd31 : d ≤ 31 := le_trans h4 (daysInMonth_le_31 h1 h2)
  have hml : 365 ≤ mlen ((y + 400 - (if m ≤ 2 then 1 else 0)) % 400) := by
    unfold mlen; split_ifs <;> omega
  by_cases hm2 : 2 < m
  · have hbase : marchBase (mpOf m) ≤ 275 := by
      unfold marchBase mpOf; split_ifs <;> omega
    unfold doyOf; omega
  · by_cases hm1 : m = 1
    · subst hm1
      have hbase : marchBase (mpOf 1) = 306 := by norm_num [marchBase, mpOf]
      unfold doyOf; omega
    · have hm : m = 2 := by omega
      subst hm
      have hbase : marchBase (mpOf 2) = 337 := by norm_num [marchBase, mpOf]
      by_cases hd : d ≤ 28
      · unfold doyOf; omega
      · have hL : isLeap y = true := by
          by_contra hL
          simp only [Bool.not_eq_true] at hL
          have : daysInMonth y 2 = 28 := by norm_num [daysInMonth, hL]
          omega
        have hLp : y % 4 = 0 ∧ (y % 100 ≠ 0 ∨ y % 400 = 0) := by
          simpa [isLeap, Bool.and_eq_true, Bool.or_eq_true, beq_iff_eq,
            bne_iff_ne] using hL
        have hd29 : d = 29 := by
          have : daysInMonth y 2 = 29 := by norm_num [daysInMonth, hL]
          omega
        subst hd29
        obtain ⟨ha, hb⟩ := hLp
        have hadj : (y + 400 - if (2 : ℕ) ≤ 2 then 1 else 0) % 400 = (y + 399) % 400 := by
          norm_num
        rw [hadj]
        have hcond : ((y + 399) % 400 + 1) % 4 = 0 ∧
            (((y + 399) % 400 + 1) % 100 ≠ 0 ∨ ((y + 399) % 400 + 1) % 400 = 0) := by
          omega
        have hmlen : mlen ((y + 399) % 400) = 366 := by
          unfold mlen; rw [if_pos hcond]
        have hdoy : doyOf 2 29 = 365 := by norm_num [doyOf, marchBase, mpOf]
        omega

/-- Unfolding `validYMD` into propositional bounds. -/
lemma validYMD_iff {y m d : ℕ} :
    validYMD y m d = true ↔ 1 ≤ m ∧ m ≤ 12 ∧ 1 ≤ d ∧ d ≤ daysInMonth y m := by
  simp [validYMD, Bool.and_eq_true, decide_eq_true_eq, and_assoc]

/-- Arithmetic characterization of `isLeap`. -/
lemma isLeap_iff {y : ℕ} : isLeap y = true ↔ y % 4 = 0 ∧ (y % 100 ≠ 0 ∨ y % 400 = 0) := by
  simp [isLeap, Bool.and_eq_true, Bool.or_eq_true, beq_iff_eq, bne_iff_ne]

/-- On cast years the signed leap predicate agrees with the unsigned one. -/
lemma isLeapZ_natCast (y : ℕ) : isLeapZ (y : ℤ) = isLeap y := by
  have hiff : isLeapZ (y : ℤ) = true ↔ isLeap y = true := by
    rw [isLeap_iff]
    simp only [isLeapZ, Bool.and_eq_true, Bool.or_eq_true, beq_iff_eq, bne_iff_ne]
    omega
  rcases h : isLeap y with _ | _
  · rcases h2 : isLeapZ (y : ℤ) with _ | _
    · rfl
    · rw [h] at hiff
      rw [h2] at hiff
      simpa using hiff.mp rfl
  · rw [h] at hiff
    exact hiff.mpr rfl

/-- On cast years the signed month-length function agrees with the unsigned
one. -/
lemma daysInMonthZ_natCast (y m : ℕ) : daysInMonthZ (y : ℤ) m = daysInMonth y m := by
  unfold daysInMonthZ daysInMonth
  rw [isLeapZ_natCast]

/-- Unfolding `validYMDZ` into propositional bounds. -/
lemma validYMDZ_iff {y : ℤ} {m d : ℕ} :
    validYMDZ y m d = true ↔
      1 ≤ m ∧ m ≤ 12 ∧ 1 ≤ d ∧ d ≤ daysInMonthZ y m ∧ -262144 ≤ y ∧ y ≤ 262143 := by
  simp [validYMDZ, Bool.and_eq_true, decide_eq_true_eq, and_assoc]

/-- A signed-valid triple with a cast year is valid in the unsigned sense,
with the year in chrono's range. -/
lemma validYMD_of_validYMDZ {y m d : ℕ} (h : validYMDZ (y : ℤ) m d = true) :
    validYMD y m d = true ∧ y ≤ 262143 := by
  obtain ⟨h1, h2, h3, h4, _, h6⟩ := validYMDZ_iff.mp h
  rw [daysInMonthZ_natCast] at h4
  exact ⟨validYMD_iff.mpr ⟨h1, h2, h3, h4⟩, by exact_mod_cast h6⟩

/-- Shifting the year by one 656-era block shifts the day count by 656 eras. -/
lemma dayNumber_shift (y m d : ℕ) :
    dayNumber (y + 262400, m, d) = dayNumber (y, m, d) + 656 * 146097 := by
  simp only [dayNumber]
  have hdbm : dbm ((y + 262400 + 400 - (if m ≤ 2 then 1 else 0)) % 400) =
      dbm ((y + 400 - (if m ≤ 2 then 1 else 0)) % 400) := by
    congr 1
    split_ifs <;> omega
  rw [hdbm]
  split_ifs <;> omega

/-- On cast years the signed day count is the unsigned one plus the era
shift. -/
lemma dayNumberZ_natCast (y m d : ℕ) :
    dayNumberZ ((y : ℤ), m, d) = dayNumber (y, m, d) + 656 * 146097 := by
  show dayNumber (((y : ℤ) + 262400).toNat, m, d) = dayNumber (y, m, d) + 656 * 146097
  have ht : ((y : ℤ) + 262400).toNat = y + 262400 := by omega
  rw [ht, dayNumber_shift]

/-- On cast years the signed epoch day agrees with `epochDay`. -/
lemma epochDayZ_natCast (y m d : ℕ) :
    epochDayZ ((y : ℤ), m, d) = epochDay (y, m, d) := by
  unfold epochDayZ epochDay
  rw [dayNumberZ_natCast]
  push_cast
  ring

/-- `ℤ` and `ℕ` render cast numbers identically. -/
lemma toString_intCast (y : ℕ) : toString ((y : ℕ) : ℤ) = toString y := rfl

/-- Core calendar round trip: converting a valid date to its epoch day and
back recovers the date. -/
theorem civilFromDays_epochDay {y m d : ℕ} (hv : validYMD y m d = true) :
    civilFromDays (epochDay (y, m, d)) = ((y : ℤ), m, d) := by
  obtain ⟨h1, h2, h3, h4⟩ := validYMD_iff.mp hv
  have hklt : (y + 400 - (if m ≤ 2 then 1 else 0)) % 400 < 400 := Nat.mod_lt _ (by norm_num)
  have hdoy := doy_lt_mlen (y := y) h1 h2 h3 h4
  have hdn : dayNumber (y, m, d) =
      ((y + 400 - (if m ≤ 2 then 1 else 0)) / 400) * 146097 +
        (dbm ((y + 400 - (if m ≤ 2 then 1 else 0)) % 400) + doyOf m d) := by
    simp only [dayNumber]; omega
  have hbound : dbm ((y + 400 - (if m ≤ 2 then 1 else 0)) % 400) + doyOf m d < 146097 := by
    have := dbm_mlen_le hklt
    omega
  have htn : ((epochDay (y, m, d)) + (anchorOff : ℤ)).toNat = dayNumber (y, m, d) := by
    unfold epochDay; omega
  simp only [civilFromDays]
  rw [htn, hdn]
  have hdiv : (((y + 400 - (if m ≤ 2 then 1 else 0)) / 400) * 146097 +
      (dbm ((y + 400 - (if m ≤ 2 then 1 else 0)) % 400) + doyOf m d)) / 146097 =
      (y + 400 - (if m ≤ 2 then 1 else 0)) / 400 := by omega
  have hmod : (((y + 400 - (if m ≤ 2 then 1 else 0)) / 400) * 146097 +
      (dbm ((y + 400 - (if m ≤ 2 then 1 else 0)) % 400) + doyOf m d)) % 146097 =
      dbm ((y + 400 - (if m ≤ 2 then 1 else 0)) % 400) + doyOf m d := by omega
  rw [hdiv, hmod, yoeOf_eq hklt hdoy]
  have hsub : dbm ((y + 400 - (if m ≤ 2 then 1 else 0)) % 400) + doyOf m d -
      dbm ((y + 400 - (if m ≤ 2 then 1 else 0)) % 400) = doyOf m d := by omega
  rw [hsub]
  have hdoyOf : doyOf m d = marchBase (mpOf m) + (d - 1) := rfl
  have he := dm1_lt_marchLenMax (y := y) h1 h2 h3 h4
  rw [hdoyOf, mOfDoy_eq h1 h2 he, dOfDoy_eq (by unfold mpOf; split_ifs <;> omega) he]
  have hd1 : d - 1 + 1 = d := by omega
  rw [hd1]
  simp only [Prod.mk.injEq, and_true]
  split_ifs <;> push_cast <;> omega


/-- A run of `k` digits is below `(acc + 1) * 10 ^ k`. -/
lemma readFixed_lt : ∀ (k acc : ℕ) (cs : List Char) (v : ℕ) (rest : List Char),
    readFixed k acc cs = some (v, rest) → v < (acc + 1) * 10 ^ k := by
  intro k
  induction k with
  | zero =>
    intro acc cs v rest h
    simp only [readFixed, Option.some.injEq, Prod.mk.injEq] at h
    omega
  | succ k ih =>
    intro acc cs v rest h
    cases cs with
    | nil => simp [readFixed] at h
    | cons c cs' =>
      simp only [readFixed] at h
      by_cases hd : charIsDigit c
      · rw [if_pos hd] at h
        have hv := ih (acc * 10 + dVal c) cs' v rest h
        have hdv : dVal c ≤ 9 := by
          simp only [charIsDigit, Bool.and_eq_true, decide_eq_true_eq] at hd
          unfold dVal; omega
        calc v < (acc * 10 + dVal c + 1) * 10 ^ k := hv
        _ ≤ ((acc + 1) * 10) * 10 ^ k := Nat.mul_le_mul_right _ (by omega)
        _ = (acc + 1) * 10 ^ (k + 1) := by ring
      · rw [if_neg hd] at h
        exact absurd h (by simp)

/-- Inversion of a zero-width fixed read. -/
lemma readFixed_zero_inv {acc v : ℕ} {cs rest : List Char}
    (h : readFixed 0 acc cs = some (v, rest)) : v = acc ∧ rest = cs := by
  simp only [readFixed, Option.some.injEq, Prod.mk.injEq] at h
  exact ⟨h.1.symm, h.2.symm⟩

/-- Inversion of a positive-width fixed read: it consumes one digit. -/
lemma readFixed_succ_inv {k acc : ℕ} {cs : List Char} {v : ℕ} {rest : List Char}
    (h : readFixed (k + 1) acc cs = some (v, rest)) :
    ∃ c cs', cs = c :: cs' ∧ charIsDigit c = true ∧
      readFixed k (acc * 10 + dVal c) cs' = some (v, rest) := by
  cases cs with
  | nil => simp [readFixed] at h
  | cons c cs' =>
    simp only [readFixed] at h
    by_cases hd : charIsDigit c = true
    · rw [if_pos hd] at h
      exact ⟨c, cs', rfl, hd, h⟩
    · rw [if_neg hd] at h
      simp at h

/-- A successful fixed read of `k` digits is also a greedy read with fuel `k`
(the fuel runs out exactly when the fixed read stops). -/
lemma readYearGo_of_readFixed : ∀ (k acc : ℕ) (cs : List Char) (v : ℕ) (rest : List Char),
    readFixed k acc cs = some (v, rest) → readYearGo k acc cs = (v, rest) := by
  intro k
  induction k with
  | zero =>
    intro acc cs v rest h
    obtain ⟨hv, hrest⟩ := readFixed_zero_inv h
    subst hv
    subst hrest
    rfl
  | succ k ih =>
    intro acc cs v rest h
    obtain ⟨c, cs', rfl, hd, h'⟩ := readFixed_succ_inv h
    show readYearGo (k + 1) acc (c :: cs') = (v, rest)
    unfold readYearGo
    rw [if_pos hd]
    exact ih _ _ _ _ h'

/-- An ASCII digit is not whitespace. -/
lemma not_ws_of_digit {c : Char} (h : charIsDigit c = true) : c.isWhitespace = false := by
  rcases hws : c.isWhitespace with _ | _
  · rfl
  · exfalso
    have hc : ((c = ' ' ∨ c = '\t') ∨ c = '\r') ∨ c = '\n' := by
      simpa [Char.isWhitespace] using hws
    rcases hc with ((rfl | rfl) | rfl) | rfl <;> revert h <;> decide

/-- An ASCII digit is not the minus sign. -/
lemma digit_ne_minus {c : Char} (h : charIsDigit c = true) : ¬c = '-' := by
  intro hc
  subst hc
  revert h
  decide

/-- An ASCII digit is not the plus sign. -/
lemma digit_ne_plus {c : Char} (h : charIsDigit c = true) : ¬c = '+' := by
  intro hc
  subst hc
  revert h
  decide

/-- A four-digit fixed read is exactly what the signed year reader does on the
same input (no whitespace to skip, no sign, four digits of fuel). -/
lemma readYearSigned_of_readFixed4 {cs : List Char} {y : ℕ} {rest : List Char}
    (h : readFixed 4 0 cs = some (y, rest)) :
    skipWS cs = cs ∧ readYearSigned cs = some ((y : ℤ), rest) := by
  obtain ⟨c1, t1, rfl, hd1, h1⟩ := readFixed_succ_inv h
  have hgo : readYearGo 3 (0 * 10 + dVal c1) t1 = (y, rest) :=
    readYearGo_of_readFixed _ _ _ _ _ h1
  have hz : (0 : ℕ) * 10 + dVal c1 = dVal c1 := by omega
  rw [hz] at hgo
  refine ⟨by simp [skipWS, not_ws_of_digit hd1], ?_⟩
  show readYearSigned (c1 :: t1) = some ((y : ℤ), rest)
  simp only [readYearSigned]
  rw [if_neg (digit_ne_minus hd1), if_neg (digit_ne_plus hd1), if_pos hd1, hgo]

/-- A two-digit fixed read is exactly what the one-or-two-digit reader does on
the same input. -/
lemma read12_of_readFixed2 {cs : List Char} {v : ℕ} {rest : List Char}
    (h : readFixed 2 0 cs = some (v, rest)) :
    skipWS cs = cs ∧ read12 cs = some (v, rest) := by
  obtain ⟨a, t1, rfl, hda, h1⟩ := readFixed_succ_inv h
  obtain ⟨b, t2, rfl, hdb, h2⟩ := readFixed_succ_inv h1
  obtain ⟨hv, hrest⟩ := readFixed_zero_inv h2
  subst hrest
  refine ⟨by simp [skipWS, not_ws_of_digit hda], ?_⟩
  show read12 (a :: b :: rest) = some (v, rest)
  simp only [read12]
  rw [if_pos hda]
  show (if charIsDigit b = true then some (dVal a * 10 + dVal b, rest)
    else some (dVal a, b :: rest)) = some (v, rest)
  rw [if_pos hdb]
  simp only [hv, Option.some.injEq, Prod.mk.injEq]
  exact ⟨by ring, trivial⟩

/-- Every canonically formed `"YYYY-MM-DD"` string is accepted by the lenient
`"%Y-%m-%d"` parser, with the same calendar triple: the program's accepted set
contains the canonical form. -/
lemma canonical_accepted {cs : List Char} {y m d : ℕ}
    (h : canonicalYMDList cs = some (y, m, d)) :
    parseYMDList cs = some ((y : ℤ), m, d) := by
  unfold canonicalYMDList at h
  split at h
  · simp at h
  · rename_i y' cs1 heq4
    split at h
    · rename_i cs2
      split at h
      · simp at h
      · rename_i m' cs3 heqm
        split at h
        · rename_i cs4
          split at h
          · simp at h
          · rename_i d' cs5 heqd
            split at h
            · rename_i hif
              obtain ⟨hy, hm, hd⟩ : y' = y ∧ m' = m ∧ d' = d := by simpa using h
              subst hy; subst hm; subst hd
              simp only [Bool.and_eq_true, decide_eq_true_eq] at hif
              obtain ⟨hcs5, hvR⟩ := hif
              subst hcs5
              have hy4 : y' < 10000 := by
                have := readFixed_lt _ _ _ _ _ heq4
                simpa using this
              obtain ⟨hws1, hys⟩ := readYearSigned_of_readFixed4 heq4
              obtain ⟨hws2, h12m⟩ := read12_of_readFixed2 heqm
              obtain ⟨hws3, h12d⟩ := read12_of_readFixed2 heqd
              have hvz : validYMDZ (y' : ℤ) m' d' = true := by
                obtain ⟨hb1, hb2, hb3, hb4⟩ := validYMD_iff.mp hvR
                refine validYMDZ_iff.mpr ⟨hb1, hb2, hb3, ?_, by omega, by omega⟩
                rw [daysInMonthZ_natCast]
                exact hb4
              simp [parseYMDList, hws1, hys, hws2, h12m, hws3, h12d, hvz]
            · simp at h
        · simp at h
    · simp at h

/-- Whatever `parseYMDList` returns is a chrono-valid signed calendar
triple. -/
lemma parseYMDList_inv {cs : List Char} {y : ℤ} {m d : ℕ}
    (h : parseYMDList cs = some (y, m, d)) : validYMDZ y m d = true := by
  unfold parseYMDList at h
  split at h
  · simp at h
  · rename_i y' cs1 heq4
    split at h
    · rename_i cs2
      split at h
      · simp at h
      · rename_i m' cs3 heq2
        split at h
        · rename_i cs4
          split at h
          · simp at h
          · rename_i d' cs5 heq3
            split at h
            · rename_i hif
              obtain ⟨hy, hm, hd⟩ : y' = y ∧ m' = m ∧ d' = d := by simpa using h
              subst hy; subst hm; subst hd
              simp only [Bool.and_eq_true, decide_eq_true_eq] at hif
              exact hif.2
            · simp at h
        · simp at h
    · simp at h

/-- Epoch-day bounds for all dates in chrono's year range: they lie inside the
model's renderable range (the upper bound is attained at 262143-12-31). -/
lemma epochDay_range {y m d : ℕ} (hv : validYMD y m d = true) (hy : y ≤ 262143) :
    MIN_DAY ≤ epochDay (y, m, d) ∧ epochDay (y, m, d) ≤ MAX_DAY := by
  obtain ⟨h1, h2, h3, h4⟩ := validYMD_iff.mp hv
  have hd31 : d ≤ 31 := le_trans h4 (daysInMonth_le_31 h1 h2)
  have hmb_le : marchBase (mpOf m) ≤ 337 := by
    unfold marchBase mpOf; split_ifs <;> omega
  have hmb_ge : m ≤ 2 → 306 ≤ marchBase (mpOf m) := by
    intro hm; unfold marchBase mpOf; split_ifs <;> omega
  have hmb_hi : 2 < m → marchBase (mpOf m) ≤ 275 := by
    intro hm; unfold marchBase mpOf; split_ifs <;> omega
  have hfeb : m = 2 → d ≤ 29 := by
    intro hm; subst hm
    have : daysInMonth y 2 ≤ 29 := by
      cases hL : isLeap y <;> norm_num [daysInMonth, hL]
    omega
  unfold epochDay MIN_DAY MAX_DAY anchorOff
  simp only [dayNumber, doyOf]
  constructor
  · rcases Nat.eq_zero_or_pos y with hy0 | hy1
    · subst hy0
      by_cases hm2 : m ≤ 2
      · rw [if_pos hm2]
        have hdbm399 : dbm 399 = 145731 := by norm_num [dbm]
        have h306 := hmb_ge hm2
        push_cast
        omega
      · rw [if_neg hm2]
        push_cast
        omega
    · have hera : 1 ≤ (y + 400 - (if m ≤ 2 then 1 else 0)) / 400 := by
        split_ifs <;> omega
      push_cast
      omega
  · by_cases hm2 : m ≤ 2
    · rw [if_pos hm2]
      have hdoy365 : marchBase (mpOf m) + (d - 1) ≤ 365 := by
        interval_cases m
        · have hmb : marchBase (mpOf 1) = 306 := by norm_num [marchBase, mpOf]
          omega
        · have hmb : marchBase (mpOf 2) = 337 := by norm_num [marchBase, mpOf]
          have := hfeb rfl
          omega
      by_cases hera : (y + 399) / 400 = 656
      · have hyoe : (y + 399) % 400 ≤ 142 := by omega
        have hdbm142 : dbm ((y + 399) % 400) ≤ 51864 := by
          have hmono := dbm_mono hyoe
          have h142 : dbm 142 = 51864 := by norm_num [dbm]
          omega
        push_cast
        omega
      · have hera' : (y + 399) / 400 ≤ 655 := by omega
        have hdbm' : dbm ((y + 399) % 400) ≤ 145731 := by
          have hle : (y + 399) % 400 ≤ 399 := by omega
          have hmono := dbm_mono hle
          have h399 : dbm 399 = 145731 := by norm_num [dbm]
          omega
        push_cast
        omega
    · rw [if_neg hm2]
      have hdoy305 : marchBase (mpOf m) + (d - 1) ≤ 305 := by
        have := hmb_hi (by omega)
        omega
      by_cases hera : (y + 400) / 400 = 656
      · have hyoe : (y + 400) % 400 ≤ 143 := by omega
        have hdbm143 : dbm ((y + 400) % 400) ≤ 52229 := by
          have hmono := dbm_mono hyoe
          have h143 : dbm 143 = 52229 := by norm_num [dbm]
          omega
        push_cast
        omega
      · have hera' : (y + 400) / 400 ≤ 655 := by omega
        have hdbm' : dbm ((y + 400) % 400) ≤ 145731 := by
          have hle : (y + 400) % 400 ≤ 399 := by omega
          have hmono := dbm_mono hle
          have h399 : dbm 399 = 145731 := by norm_num [dbm]
          omega
        push_cast
        omega

/-- Setting a nonzero index leaves the head entry of a buffer unchanged. -/
lemma getD_zero_set {l : List ℚ} {n : ℕ} {v : ℚ} (hn : n ≠ 0) :
    (l.set n v).getD 0 0 = l.getD 0 0 := by
  cases l with
  | nil => simp
  | cons a l' =>
    cases n with
    | zero => exact absurd rfl hn
    | succ k => simp [List.set]

/-- The only run-time failure of the cell loop is the out-of-bounds panic. -/
lemma scanCells_error_eq : ∀ (cells : List String) (buf : List ℚ) (em : Bool) (i : ℕ)
    (e : PError), scanCells buf em i cells = .error e → e = .panic := by
  intro cells
  induction cells with
  | nil => intro buf em i e h; simp [scanCells] at h
  | cons c cs ih =>
    intro buf em i e h
    simp only [scanCells] at h
    split at h
    · exact ih _ _ _ _ h
    · split at h
      · exact ih _ _ _ _ h
      · have : PError.panic = e := by simpa using h
        exact this.symm

/-- The cell loop never touches slot 0 (the date slot). -/
lemma scanCells_head : ∀ (cells : List String) (buf : List ℚ) (em : Bool) (i : ℕ)
    (out : List ℚ × Bool), scanCells buf em i cells = .ok out →
    out.1.getD 0 0 = buf.getD 0 0 := by
  intro cells
  induction cells with
  | nil =>
    intro buf em i out h
    simp only [scanCells, Except.ok.injEq] at h
    rw [← h]
  | cons c cs ih =>
    intro buf em i out h
    simp only [scanCells] at h
    split at h
    · exact ih _ _ _ _ h
    · split at h
      · have := ih _ _ _ _ h
        rw [this, getD_zero_set (by omega)]
      · simp at h

/-- Row-level failures are always panics. -/
lemma processRow_error_eq {r : List String} {e : PError}
    (h : processRow r = .error e) : e = .panic := by
  cases r with
  | nil => simp [processRow] at h
  | cons c rest =>
    simp only [processRow] at h
    split at h
    · simp at h
    · split at h
      · rename_i e' heq
        have he : e' = e := by simpa using h
        subst he
        exact scanCells_error_eq _ _ _ _ _ heq
      · split at h <;> simp at h

/-- Scanning rows either succeeds or panics; it never reports a table or date
error. -/
lemma scanRows_error_eq : ∀ (rows : List (List String)) (acc : List OHLCV) (e : PError),
    scanRows rows acc = .error e → e = .panic := by
  intro rows
  induction rows with
  | nil => intro acc e h; simp [scanRows] at h
  | cons r rs ih =>
    intro acc e h
    simp only [scanRows] at h
    split at h
    · rename_i e' heq
      have : e' = e := by simpa using h
      subst this
      exact processRow_error_eq heq
    · exact ih _ _ h
    · exact ih _ _ h

/-- Rows that are all discarded contribute nothing. -/
lemma scanRows_all_none : ∀ (rows : List (List String)) (acc : List OHLCV),
    (∀ r ∈ rows, processRow r = .ok none) → scanRows rows acc = .ok acc := by
  intro rows
  induction rows with
  | nil => intro acc _; rfl
  | cons r rs ih =>
    intro acc hall
    have hr : processRow r = .ok none := hall r (by simp)
    simp only [scanRows]
    rw [hr]
    exact ih acc (fun r' hr' => hall r' (by simp [hr']))

/-- With both bounds parsing, `parse_html` reduces to the row scan (for every
frequency: the capacity estimate is computed and discarded). -/
lemma parse_html_eq_scanRows {rows : List (List String)} {f : Frequency}
    {s : String} {e : Option String} {t : String} {a b : ℤ × ℕ × ℕ}
    (ha : parseYMD s = some a) (hb : parseYMD (e.getD t) = some b) :
    parse_html (some rows) f s e t = scanRows rows [] := by
  cases f <;> simp [parse_html, get_array_size_for_frequency, ha, hb]

/-- With an unparsable start bound, `parse_html` reports the date error. -/
lemma parse_html_err_start {rows : List (List String)} {f : Frequency}
    {s : String} {e : Option String} {t : String} (hs : parseYMD s = none) :
    parse_html (some rows) f s e t = .error .dateParse := by
  simp [parse_html, get_array_size_for_frequency, hs]

/-- With an unparsable end bound, `parse_html` reports the date error. -/
lemma parse_html_err_end {rows : List (List String)} {f : Frequency}
    {s : String} {e : Option String} {t : String} {a : ℤ × ℕ × ℕ}
    (ha : parseYMD s = some a) (he : parseYMD (e.getD t) = none) :
    parse_html (some rows) f s e t = .error .dateParse := by
  simp [parse_html, get_array_size_for_frequency, ha, he]

set_option maxHeartbeats 2000000 in
/-- Stepping one calendar day forward advances the day count by exactly one and
preserves validity. -/
lemma nextCalendarDay_step {y m d : ℕ} (hv : validYMD y m d = true) :
    dayNumber (nextCalendarDay (y, m, d)) = dayNumber (y, m, d) + 1 ∧
    validYMD (nextCalendarDay (y, m, d)).1 (nextCalendarDay (y, m, d)).2.1
      (nextCalendarDay (y, m, d)).2.2 = true := by
  obtain ⟨h1, h2, h3, h4⟩ := validYMD_iff.mp hv
  simp only [nextCalendarDay]
  by_cases hd : d < daysInMonth y m
  · rw [if_pos hd]
    refine ⟨?_, ?_⟩
    · simp only [dayNumber, doyOf]
      omega
    · show validYMD y m (d + 1) = true
      exact validYMD_iff.mpr ⟨h1, h2, by omega, by omega⟩
  · have hdmax : d = daysInMonth y m := by omega
    by_cases hm12 : m < 12
    · rw [if_neg hd, if_pos hm12]
      refine ⟨?_, ?_⟩
      swap
      · show validYMD y (m + 1) 1 = true
        exact validYMD_iff.mpr ⟨by omega, by omega, le_refl 1,
          daysInMonth_pos (by omega) (by omega)⟩
      subst hdmax
      interval_cases m
      · simp [dayNumber, doyOf, mpOf, marchBase, daysInMonth]
      · -- February → March: the March-year advances
        have hL1 : dayNumber (y, 3, 1) =
            (y + 400) / 400 * 146097 + dbm ((y + 400) % 400) := by
          simp [dayNumber, doyOf, mpOf, marchBase]
        by_cases hLb : isLeap y = true
        · have hF : daysInMonth y 2 = 29 := by norm_num [daysInMonth, hLb]
          obtain ⟨hy4, hy100⟩ := isLeap_iff.mp hLb
          have hL2 : dayNumber (y, 2, 29) =
              (y + 399) / 400 * 146097 + dbm ((y + 399) % 400) + 365 := by
            simp [dayNumber, doyOf, mpOf, marchBase]
          rw [hF, hL1, hL2]
          by_cases hk : (y + 399) % 400 = 399
          · have h400 : (y + 400) % 400 = 0 := by omega
            have hA : dbm ((y + 400) % 400) = 0 := by rw [h400]; norm_num [dbm]
            have hB : dbm ((y + 399) % 400) = 145731 := by rw [hk]; norm_num [dbm]
            omega
          · have hstep : dbm ((y + 399) % 400) + mlen ((y + 399) % 400) =
                dbm ((y + 399) % 400 + 1) := dbm_add_mlen (by omega)
            have hml : mlen ((y + 399) % 400) = 366 := by
              unfold mlen
              have hc : ((y + 399) % 400 + 1) % 4 = 0 ∧
                  (((y + 399) % 400 + 1) % 100 ≠ 0 ∨
                    ((y + 399) % 400 + 1) % 400 = 0) := by omega
              rw [if_pos hc]
            have hA : dbm ((y + 400) % 400) = dbm ((y + 399) % 400 + 1) := by
              congr 1
              omega
            omega
        · have hF : daysInMonth y 2 = 28 := by
            rcases hL' : isLeap y with _ | _
            · norm_num [daysInMonth, hL']
            · exact absurd hL' hLb
          have hnl : ¬(y % 4 = 0 ∧ (y % 100 ≠ 0 ∨ y % 400 = 0)) :=
            fun hc => hLb (isLeap_iff.mpr hc)
          have hL2 : dayNumber (y, 2, 28) =
              (y + 399) / 400 * 146097 + dbm ((y + 399) % 400) + 364 := by
            simp [dayNumber, doyOf, mpOf, marchBase]
          rw [hF, hL1, hL2]
          by_cases hk : (y + 399) % 400 = 399
          · exfalso; omega
          · have hstep : dbm ((y + 399) % 400) + mlen ((y + 399) % 400) =
                dbm ((y + 399) % 400 + 1) := dbm_add_mlen (by omega)
            have hml : mlen ((y + 399) % 400) = 365 := by
              unfold mlen
              have hc : ¬(((y + 399) % 400 + 1) % 4 = 0 ∧
                  (((y + 399) % 400 + 1) % 100 ≠ 0 ∨
                    ((y + 399) % 400 + 1) % 400 = 0)) := by omega
              rw [if_neg hc]
            have hA : dbm ((y + 400) % 400) = dbm ((y + 399) % 400 + 1) := by
              congr 1
              omega
            omega
      · simp [dayNumber, doyOf, mpOf, marchBase, daysInMonth]
      · simp [dayNumber, doyOf, mpOf, marchBase, daysInMonth]
      · simp [dayNumber, doyOf, mpOf, marchBase, daysInMonth]
      · simp [dayNumber, doyOf, mpOf, marchBase, daysInMonth]
      · simp [dayNumber, doyOf, mpOf, marchBase, daysInMonth]
      · simp [dayNumber, doyOf, mpOf, marchBase, daysInMonth]
      · simp [dayNumber, doyOf, mpOf, marchBase, daysInMonth]
      · simp [dayNumber, doyOf, mpOf, marchBase, daysInMonth]
      · simp [dayNumber, doyOf, mpOf, marchBase, daysInMonth]
    · have hm : m = 12 := by omega
      subst hm
      rw [if_neg hd, if_neg hm12]
      refine ⟨?_, ?_⟩
      swap
      · show validYMD (y + 1) 1 1 = true
        exact validYMD_iff.mpr ⟨by norm_num, by norm_num, le_refl 1,
          daysInMonth_pos (by norm_num) (by norm_num)⟩
      subst hdmax
      simp [dayNumber, doyOf, mpOf, marchBase, daysInMonth]

/-- Iterating the calendar-day successor advances the day count by the
iteration count. -/
lemma nextCalendarDay_iterate (n : ℕ) : ∀ t : ℕ × ℕ × ℕ,
    validYMD t.1 t.2.1 t.2.2 = true →
    dayNumber (nextCalendarDay^[n] t) = dayNumber t + n ∧
    validYMD (nextCalendarDay^[n] t).1 (nextCalendarDay^[n] t).2.1
      (nextCalendarDay^[n] t).2.2 = true := by
  induction n with
  | zero => intro t ht; exact ⟨by simp, by simpa using ht⟩
  | succ n ih =>
    intro t ht
    rw [Function.iterate_succ_apply]
    obtain ⟨y, m, d⟩ := t
    have hv : validYMD y m d = true := ht
    obtain ⟨h1, h2⟩ := nextCalendarDay_step hv
    obtain ⟨ih1, ih2⟩ := ih (nextCalendarDay (y, m, d)) h2
    exact ⟨by rw [ih1, h1]; omega, ih2⟩

/-- A parse result of `parseYMD` with a cast (non-negative) year is a valid
calendar triple in the unsigned sense, with the year in chrono's range. -/
lemma parseYMD_valid {s : String} {y m d : ℕ}
    (h : parseYMD s = some ((y : ℤ), m, d)) :
    validYMD y m d = true ∧ y ≤ 262143 :=
  validYMD_of_validYMDZ (parseYMDList_inv h)

/-- A `"%Y-%m-%d"` parse fails when the first character is not whitespace, not
a sign, and not a digit. -/
lemma parseYMDList_not_start {c : Char} {cs : List Char}
    (hws : c.isWhitespace = false) (hminus : ¬c = '-') (hplus : ¬c = '+')
    (hd : charIsDigit c = false) : parseYMDList (c :: cs) = none := by
  unfold parseYMDList
  have hskip : skipWS (c :: cs) = c :: cs := by
    simp [skipWS, hws]
  rw [hskip]
  have hys : readYearSigned (c :: cs) = none := by
    simp only [readYearSigned]
    rw [if_neg hminus, if_neg hplus]
    simp [hd]
  rw [hys]

/-- A `"%Y-%m-%d"` parse fails on any string whose first character is a
letter, whatever follows. -/
lemma parseYMDList_head_alpha {s : String} (rest : List Char) {c : Char} {cs : List Char}
    (hdata : s.data = c :: cs) (hws : c.isWhitespace = false) (hminus : ¬c = '-')
    (hplus : ¬c = '+') (hc : charIsDigit c = false) :
    parseYMDList (s.data ++ rest) = none := by
  rw [hdata, List.cons_append]
  exact parseYMDList_not_start hws hminus hplus hc

/-- Display strings (`"Mon D, YYYY"`) never deserialize: their first character
is a letter of a month name, not a digit. -/
lemma parseYMD_formatDisplay (t : ℤ × ℕ × ℕ) : parseYMD (formatDisplay t) = none := by
  obtain ⟨y, m, d⟩ := t
  show parseYMDList (formatDisplay (y, m, d)).data = none
  have hsplit : (formatDisplay (y, m, d)).data =
      (monthAbbrevName m).data ++ (" " ++ toString d ++ ", " ++ pad4 y).data := by
    simp [formatDisplay, String.data_append]
  rw [hsplit]
  unfold monthAbbrevName
  by_cases hk : m - 1 < 12
  · interval_cases h : (m - 1)
    · exact parseYMDList_head_alpha _ rfl (by decide) (by decide) (by decide) rfl
    · exact parseYMDList_head_alpha _ rfl (by decide) (by decide) (by decide) rfl
    · exact parseYMDList_head_alpha _ rfl (by decide) (by decide) (by decide) rfl
    · exact parseYMDList_head_alpha _ rfl (by decide) (by decide) (by decide) rfl
    · exact parseYMDList_head_alpha _ rfl (by decide) (by decide) (by decide) rfl
    · exact parseYMDList_head_alpha _ rfl (by decide) (by decide) (by decide) rfl
    · exact parseYMDList_head_alpha _ rfl (by decide) (by decide) (by decide) rfl
    · exact parseYMDList_head_alpha _ rfl (by decide) (by decide) (by decide) rfl
    · exact parseYMDList_head_alpha _ rfl (by decide) (by decide) (by decide) rfl
    · exact parseYMDList_head_alpha _ rfl (by decide) (by decide) (by decide) rfl
    · exact parseYMDList_head_alpha _ rfl (by decide) (by decide) (by decide) rfl
    · exact parseYMDList_head_alpha _ rfl (by decide) (by decide) (by decide) rfl
  · rw [List.getD_eq_default _ _ (by simpa using hk)]
    exact parseYMDList_head_alpha _ rfl (by decide) (by decide) (by decide) rfl

/-- Every successful serialization of a raw timestamp is a display string. -/
lemma serializeDate_ok {ts : ℕ} {str : String}
    (h : serializeDate (.Timestamp ts) = .ok str) : ∃ t, str = formatDisplay t := by
  have h' : (if MIN_DAY ≤ Int.ediv (i64OfU64 (ts * 1000 % 2 ^ 64)) 86400000 then
      if Int.ediv (i64OfU64 (ts * 1000 % 2 ^ 64)) 86400000 ≤ MAX_DAY then
        Except.ok (formatDisplay (civilFromDays
          (Int.ediv (i64OfU64 (ts * 1000 % 2 ^ 64)) 86400000)))
      else Except.error PError.formatErr
    else Except.error PError.formatErr) = .ok str := h
  split_ifs at h'
  exact ⟨_, (Except.ok.inj h').symm⟩

/-- Evaluation of the float parser on the cell literals used by the concrete
theorems (the rational value itself is settled by `norm_num`; the control flow
reduces definitionally). -/
lemma parseF64_one_point_zero : parseF64 (stripCommas "1.0") = some 1 := by
  have h1 : parseF64 (stripCommas "1.0") =
      some (((digsVal ['1'] : ℚ) + (digsVal ['0'] : ℚ) /
        10 ^ (['0'] : List Char).length) * 10 ^ (0 : ℤ)) := rfl
  rw [h1, show digsVal ['1'] = 1 from rfl, show digsVal ['0'] = 0 from rfl]
  norm_num

/-- Evaluation of the float parser at `"2.0"`. -/
lemma parseF64_two_point_zero : parseF64 (stripCommas "2.0") = some 2 := by
  have h1 : parseF64 (stripCommas "2.0") =
      some (((digsVal ['2'] : ℚ) + (digsVal ['0'] : ℚ) /
        10 ^ (['0'] : List Char).length) * 10 ^ (0 : ℤ)) := rfl
  rw [h1, show digsVal ['2'] = 2 from rfl, show digsVal ['0'] = 0 from rfl]
  norm_num

/-- Evaluation of the float parser at `"0.5"`. -/
lemma parseF64_zero_point_five : parseF64 (stripCommas "0.5") = some (1 / 2) := by
  have h1 : parseF64 (stripCommas "0.5") =
      some (((digsVal ['0'] : ℚ) + (digsVal ['5'] : ℚ) /
        10 ^ (['5'] : List Char).length) * 10 ^ (0 : ℤ)) := rfl
  rw [h1, show digsVal ['0'] = 0 from rfl, show digsVal ['5'] = 5 from rfl]
  norm_num

/-- Evaluation of the float parser at `"1.5"`. -/
lemma parseF64_one_point_five : parseF64 (stripCommas "1.5") = some (3 / 2) := by
  have h1 : parseF64 (stripCommas "1.5") =
      some (((digsVal ['1'] : ℚ) + (digsVal ['5'] : ℚ) /
        10 ^ (['5'] : List Char).length) * 10 ^ (0 : ℤ)) := rfl
  rw [h1, show digsVal ['1'] = 1 from rfl, show digsVal ['5'] = 5 from rfl]
  norm_num

/-- Evaluation of the float parser at `"100"`. -/
lemma parseF64_hundred : parseF64 (stripCommas "100") = some 100 := by
  have h1 : parseF64 (stripCommas "100") =
      some ((digsVal ['1', '0', '0'] : ℚ) * 10 ^ (0 : ℤ)) := rfl
  rw [h1, show digsVal ['1', '0', '0'] = 100 from rfl]
  norm_num

/-- Evaluation of the float parser at `"1"`. -/
lemma parseF64_one : parseF64 (stripCommas "1") = some 1 := by
  have h1 : parseF64 (stripCommas "1") =
      some ((digsVal ['1'] : ℚ) * 10 ^ (0 : ℤ)) := rfl
  rw [h1, show digsVal ['1'] = 1 from rfl]
  norm_num

/-- Bug localization for the out-of-bounds panic: with at most six cells after
the date cell the loop indices stay in bounds, so the cell scan cannot fail. -/
lemma scanCells_no_panic : ∀ (cells : List String) (buf : List ℚ) (em : Bool) (i : ℕ),
    cells.length + i ≤ 6 → ∀ e, scanCells buf em i cells ≠ .error e := by
  intro cells
  induction cells with
  | nil => intro buf em i _ e h; simp [scanCells] at h
  | cons c cs ih =>
    intro buf em i hlen e h
    simp only [scanCells] at h
    split at h
    · exact ih _ _ _ (by simp at hlen; omega) _ h
    · split at h
      · exact ih _ _ _ (by simp at hlen; omega) _ h
      · simp at hlen
        omega

/-- A row of at most seven cells (date plus at most six values) can never make
the extraction abort; the panic of C1/C2 requires a numeric seventh value
cell. -/
lemma processRow_no_panic {r : List String} (hlen : r.length ≤ 7) (e : PError) :
    processRow r ≠ .error e := by
  intro h
  cases r with
  | nil => simp [processRow] at h
  | cons c rest =>
    simp only [processRow] at h
    split at h
    · simp at h
    · split at h
      · rename_i heq
        exact scanCells_no_panic rest _ _ _ (by simp at hlen; omega) _ heq
      · split at h <;> simp at h

/-! ## Claim theorems -/

/-- C1: the spec says any cell beyond the sixth value cell of a row is ignored
without error, so no row can make the extraction call fail or abort.  The code
violates this: this theorem evaluates `parse_html` at the failing input — a row
whose seventh value cell after the date parses as a number — and the cell loop
writes `ohlcv_vec[7]` on a 7-element array, a panic (index out of bounds) that
aborts the whole call. -/
theorem claim_C1 :
    parse_html (some [["Dec 24,2020", "1", "1", "1", "1", "1", "1", "1"]])
      .daily "2020-01-01" (some "2020-01-02") "2020-01-02" = .error .panic := by
  decide

/-- C2: the spec's per-row trichotomy (discard on bad/zero date; emit exactly
one record when at least one of the six slots parses; discard when none do)
fails on the code: this theorem evaluates the failing input — a row with a
valid date, six parsed slots, and a seventh numeric cell — on which the row is
classified in none of the three ways; the call aborts with an index-out-of-
bounds panic instead of emitting the record. -/
theorem claim_C2 :
    parse_html (some [["Dec 24,2020", "1.0", "2.0", "0.5", "1.5", "1.5", "100", "7"]])
      .daily "2020-01-01" (some "2020-01-02") "2020-01-02" = .error .panic := by
  decide

/-- C3: for any frequency and parsable start/end bounds, the single row
`["Dec 24,2020","1.0","2.0","0.5","1.5","1.5","100"]` yields exactly one
record with the epoch of 2020-12-24T00:00:00Z and the six numeric fields;
1608768000 is that epoch. -/
theorem claim_C3 (f : Frequency) (s : String) (e : Option String) (t : String)
    (hs : parseYMD s ≠ none) (he : parseYMD (e.getD t) ≠ none) :
    parse_html (some [["Dec 24,2020", "1.0", "2.0", "0.5", "1.5", "1.5", "100"]])
        f s e t =
      .ok [{ date := .Timestamp 1608768000, open_ := 1, high := 2, low := 1/2,
             close := 3/2, adj_close := 3/2, volume := 100 }] ∧
    (1608768000 : ℤ) = 86400 * epochDay (2020, 12, 24) := by
  obtain ⟨a, ha⟩ := Option.ne_none_iff_exists'.mp hs
  obtain ⟨b, hb⟩ := Option.ne_none_iff_exists'.mp he
  refine ⟨?_, by decide⟩
  rw [parse_html_eq_scanRows ha hb]
  have hdv : dateValue "Dec 24,2020" = 1608768000 := rfl
  norm_num [scanRows, processRow, scanCells, hdv, parseF64_one_point_zero,
    parseF64_two_point_zero, parseF64_zero_point_five, parseF64_one_point_five,
    parseF64_hundred, OHLCV.insert, OHLCV.default, ratToU64, List.set,
    List.replicate, List.getD]
  omega

/-- C3 witness: the theorem applied at daily frequency with concrete bounds. -/
theorem claim_C3_witness :
    parse_html (some [["Dec 24,2020", "1.0", "2.0", "0.5", "1.5", "1.5", "100"]])
        .daily "2020-01-01" (some "2021-01-01") "x" =
      .ok [{ date := .Timestamp 1608768000, open_ := 1, high := 2, low := 1/2,
             close := 3/2, adj_close := 3/2, volume := 100 }] ∧
    (1608768000 : ℤ) = 86400 * epochDay (2020, 12, 24) :=
  claim_C3 .daily "2020-01-01" (some "2021-01-01") "x" (by decide) (by decide)

/-- C4: `parse_html` fails with the missing-table error exactly when the
document has no table body (an iff over all documents) — in particular a
missing table is reported even when the start bound is unparsable, so nothing
downstream runs, and a present table body never yields that error — and a
table body whose rows all fail to qualify yields the empty sequence, not an
error, whenever both bounds parse. -/
theorem claim_C4 (f : Frequency) (s : String) (e : Option String) (t : String) :
    (∀ doc, parse_html doc f s e t = .error .missingTable ↔ doc = none) ∧
    (∀ rows, parseYMD s ≠ none → parseYMD (e.getD t) ≠ none →
      (∀ r ∈ rows, processRow r = .ok none) →
      parse_html (some rows) f s e t = .ok []) := by
  constructor
  · intro doc
    constructor
    · intro heq
      cases doc with
      | none => rfl
      | some rows =>
        exfalso
        rcases hps : parseYMD s with _ | a
        · rw [parse_html_err_start hps] at heq
          simp at heq
        · rcases hpe : parseYMD (e.getD t) with _ | b
          · rw [parse_html_err_end hps hpe] at heq
            simp at heq
          · rw [parse_html_eq_scanRows hps hpe] at heq
            have := scanRows_error_eq rows [] _ heq
            simp at this
    · intro hdoc
      subst hdoc
      rfl
  · intro rows hs he hall
    obtain ⟨a, ha⟩ := Option.ne_none_iff_exists'.mp hs
    obtain ⟨b, hb⟩ := Option.ne_none_iff_exists'.mp he
    rw [parse_html_eq_scanRows ha hb]
    exact scanRows_all_none rows [] hall

/-- C4 witness: concrete missing-table failure and a concrete all-header body
yielding the empty sequence. -/
theorem claim_C4_witness :
    parse_html none .daily "2020-01-01" (some "2020-01-10") "x" =
      .error .missingTable ∧
    parse_html (some [["hello"], []]) .daily "2020-01-01" (some "2020-01-10") "x" =
      .ok [] :=
  ⟨((claim_C4 .daily "2020-01-01" (some "2020-01-10") "x").1 none).mpr rfl,
   (claim_C4 .daily "2020-01-01" (some "2020-01-10") "x").2 [["hello"], []]
     (by decide) (by decide) (by decide)⟩

/-- C5 (corrected): for bounds the date parse accepts, the capacity estimator
counts whole calendar days (characterized independently by iterating the
calendar-day successor): when the end bound is `n` days after the start bound,
daily gives `n`, weekly gives `n / 7`, and monthly gives no estimate; when the
end bound is on or before the start bound the count is floored at 0; a bound
the parse rejects is a date-parse error; and the spec's example range
2020-01-01 → 2020-01-10 gives 9.  The parse is chrono's lenient `"%Y-%m-%d"`,
which accepts strings beyond the canonical `"YYYY-MM-DD"` form (see the
counterexample refuting the original error clause). -/
theorem claim_C5 :
    (∀ (s e : String) (y1 m1 d1 y2 m2 d2 n : ℕ),
      parseYMD s = some ((y1 : ℤ), m1, d1) → parseYMD e = some ((y2 : ℤ), m2, d2) →
      nextCalendarDay^[n] (y1, m1, d1) = (y2, m2, d2) →
        get_array_size_for_frequency .daily s e = .ok (some n) ∧
        get_array_size_for_frequency .weekly s e = .ok (some (n / 7)) ∧
        get_array_size_for_frequency .monthly s e = .ok none) ∧
    (∀ (s e : String) (y1 m1 d1 y2 m2 d2 n : ℕ),
      parseYMD s = some ((y1 : ℤ), m1, d1) → parseYMD e = some ((y2 : ℤ), m2, d2) →
      nextCalendarDay^[n] (y2, m2, d2) = (y1, m1, d1) →
        get_array_size_for_frequency .daily s e = .ok (some 0) ∧
        get_array_size_for_frequency .weekly s e = .ok (some 0)) ∧
    (∀ (s e : String) (f : Frequency), parseYMD s = none ∨ parseYMD e = none →
      get_array_size_for_frequency f s e = .error .dateParse) ∧
    get_array_size_for_frequency .daily "2020-01-01" "2020-01-10" = .ok (some 9) := by
  refine ⟨?_, ?_, ?_, by decide⟩
  · intro s e y1 m1 d1 y2 m2 d2 n hs he hit
    obtain ⟨hvs, _⟩ := parseYMD_valid hs
    obtain ⟨hdn, _⟩ := nextCalendarDay_iterate n (y1, m1, d1) hvs
    rw [hit] at hdn
    have hz1 := dayNumberZ_natCast y1 m1 d1
    have hz2 := dayNumberZ_natCast y2 m2 d2
    have hdd : (dayNumberZ ((y2 : ℤ), m2, d2) : ℤ) -
        (dayNumberZ ((y1 : ℤ), m1, d1) : ℤ) = (n : ℤ) := by
      rw [hz1, hz2]
      push_cast
      omega
    have hx : (max ((dayNumberZ ((y2 : ℤ), m2, d2) : ℤ) -
        (dayNumberZ ((y1 : ℤ), m1, d1) : ℤ)) 0).toNat = n := by omega
    have hy : (max (Int.tdiv ((dayNumberZ ((y2 : ℤ), m2, d2) : ℤ) -
        (dayNumberZ ((y1 : ℤ), m1, d1) : ℤ)) 7) 0).toNat = n / 7 := by
      rw [hdd, show Int.tdiv ((n : ℕ) : ℤ) 7 = ((n / 7 : ℕ) : ℤ) from rfl]
      omega
    refine ⟨?_, ?_, ?_⟩ <;> simp [get_array_size_for_frequency, hs, he, hx, hy]
  · intro s e y1 m1 d1 y2 m2 d2 n hs he hit
    obtain ⟨hve, _⟩ := parseYMD_valid he
    obtain ⟨hdn, _⟩ := nextCalendarDay_iterate n (y2, m2, d2) hve
    rw [hit] at hdn
    have hz1 := dayNumberZ_natCast y1 m1 d1
    have hz2 := dayNumberZ_natCast y2 m2 d2
    have hdd : (dayNumberZ ((y2 : ℤ), m2, d2) : ℤ) -
        (dayNumberZ ((y1 : ℤ), m1, d1) : ℤ) = -(n : ℤ) := by
      rw [hz1, hz2]
      push_cast
      omega
    have hx : (max ((dayNumberZ ((y2 : ℤ), m2, d2) : ℤ) -
        (dayNumberZ ((y1 : ℤ), m1, d1) : ℤ)) 0).toNat = 0 := by omega
    have hy : (max (Int.tdiv ((dayNumberZ ((y2 : ℤ), m2, d2) : ℤ) -
        (dayNumberZ ((y1 : ℤ), m1, d1) : ℤ)) 7) 0).toNat = 0 := by
      rw [hdd, Int.neg_tdiv, show Int.tdiv ((n : ℕ) : ℤ) 7 = ((n / 7 : ℕ) : ℤ) from rfl]
      omega
    refine ⟨?_, ?_⟩ <;> simp [get_array_size_for_frequency, hs, he, hx, hy]
  · intro s e f h
    rcases h with h | h
    · simp [get_array_size_for_frequency, h]
    · rcases hps : parseYMD s with _ | a
      · simp [get_array_size_for_frequency, hps]
      · simp [get_array_size_for_frequency, hps, h]

/-- C5 counterexample, refuting the original claim's error clause ("if either
string is not valid YYYY-MM-DD, it fails with DateParseError"): `"2020-1-1"`
is not in canonical `"YYYY-MM-DD"` form, yet the estimator accepts it —
chrono's `"%Y-%m-%d"` parse tolerates unpadded fields — and returns a count
instead of failing. -/
theorem claim_C5_counterexample :
    isCanonicalYMD "2020-1-1" = false ∧
    get_array_size_for_frequency .daily "2020-1-1" "2020-01-10" = .ok (some 9) := by
  decide

/-- C5 witness: the spec's example, via the successor characterization. -/
theorem claim_C5_witness :
    get_array_size_for_frequency .daily "2020-01-01" "2020-01-10" = .ok (some 9) ∧
    get_array_size_for_frequency .weekly "2020-01-01" "2020-01-10" = .ok (some 1) ∧
    get_array_size_for_frequency .monthly "2020-01-01" "2020-01-10" = .ok none :=
  claim_C5.1 "2020-01-01" "2020-01-10" 2020 1 1 2020 1 10 9
    (by decide) (by decide) (by decide)

/-- C6: canonical round trip — for any parsable `"YYYY-MM-DD"` string, the
epoch produced by the canonical parse, displayed through the epoch-to-string
path, names exactly the parsed calendar day `(y, m, d)`; the human-phrase path
renders the same `(y, m, d)`; so the two code paths never disagree on the
selected day (the display differs only in using the abbreviated month name and
a 4-padded year). -/
theorem claim_C6 (s : String) (y m d : ℕ) (hs : parseYMD s = some ((y : ℤ), m, d)) :
    date_to_timestamp s = .ok (86400 * epochDay (y, m, d)) ∧
    civilFromDays (Int.ediv (86400 * epochDay (y, m, d) * 1000) 86400000) =
      ((y : ℤ), m, d) ∧
    timestamp_to_date (86400 * epochDay (y, m, d) * 1000) =
      .ok (formatDisplay ((y : ℤ), m, d)) ∧
    human_readable_date s =
      .ok (monthLongName m ++ " " ++ toString d ++ ", " ++ toString y) ∧
    formatDisplay ((y : ℤ), m, d) =
      monthAbbrevName m ++ " " ++ toString d ++ ", " ++ pad4 (y : ℤ) := by
  obtain ⟨hv, hy⟩ := validYMD_of_validYMDZ (parseYMDList_inv hs)
  have harg : Int.ediv (86400 * epochDay (y, m, d) * 1000) 86400000 =
      epochDay (y, m, d) := by
    have h : 86400 * epochDay (y, m, d) * 1000 = 86400000 * epochDay (y, m, d) := by
      ring
    rw [h]
    show 86400000 * epochDay (y, m, d) / 86400000 = _
    exact Int.mul_ediv_cancel_left _ (by norm_num)
  obtain ⟨hlo, hhi⟩ := epochDay_range hv hy
  refine ⟨?_, ?_, ?_, ?_, rfl⟩
  · simp [date_to_timestamp, hs, epochDayZ_natCast]
  · rw [harg]
    exact civilFromDays_epochDay hv
  · unfold timestamp_to_date
    rw [harg, if_pos hlo, if_pos hhi, civilFromDays_epochDay hv]
  · simp [human_readable_date, hs, toString_intCast]

/-- C6 witness: the round trip at the spec's example date 2005-12-28, whose
display string is `"Dec 28, 2005"` and whose epoch is 1135728000. -/
theorem claim_C6_witness :
    date_to_timestamp "2005-12-28" = .ok (86400 * epochDay (2005, 12, 28)) ∧
    timestamp_to_date (86400 * epochDay (2005, 12, 28) * 1000) =
      .ok (formatDisplay ((2005 : ℤ), 12, 28)) ∧
    formatDisplay ((2005 : ℤ), 12, 28) = "Dec 28, 2005" ∧
    86400 * epochDay (2005, 12, 28) = 1135728000 := by
  have h := claim_C6 "2005-12-28" 2005 12 28 (by decide)
  exact ⟨h.1, h.2.2.1, by decide, by decide⟩

/-- C7 (corrected): deserializing a date accepts exactly the strings accepted
by chrono's lenient `"%Y-%m-%d"` parse — a strict superset of the canonical
`"YYYY-MM-DD"` form, which it contains (first conjunct) — storing the parsed
epoch clamped to non-negative; any string the parse rejects fails with the
date-parse error; in particular every `"Mon D, YYYY"` display string that
serialization renders from a raw timestamp fails, so epoch-constructed dates
never survive a serialize / deserialize round trip. -/
theorem claim_C7 :
    (∀ (s : String) (y m d : ℕ), canonicalYMDList s.data = some (y, m, d) →
      parseYMD s = some ((y : ℤ), m, d)) ∧
    (∀ (s : String) (t : ℤ × ℕ × ℕ), parseYMD s = some t →
      deserializeDate s = .ok (.Timestamp (max (86400 * epochDayZ t) 0).toNat)) ∧
    (∀ s : String, parseYMD s = none → deserializeDate s = .error .dateParse) ∧
    (∀ (ts : ℕ) (str : String), serializeDate (.Timestamp ts) = .ok str →
      deserializeDate str = .error .dateParse) := by
  refine ⟨?_, ?_, ?_, ?_⟩
  · intro s y m d h
    exact canonical_accepted h
  · intro s t h
    simp [deserializeDate, date_to_timestamp, h]
  · intro s h
    simp [deserializeDate, date_to_timestamp, h]
  · intro ts str h
    obtain ⟨t, rfl⟩ := serializeDate_ok h
    simp [deserializeDate, date_to_timestamp, parseYMD_formatDisplay]

/-- C7 counterexample, refuting the original claim's exact-acceptance clause
("accepts exactly YYYY-MM-DD, failing with DateParseError on any other
input"): `" 2020-01-01"` and `"2020-1-1"` are not in canonical `"YYYY-MM-DD"`
form, yet both deserialize successfully — chrono skips whitespace before
numeric fields and accepts unpadded fields. -/
theorem claim_C7_counterexample :
    isCanonicalYMD " 2020-01-01" = false ∧
    deserializeDate " 2020-01-01" = .ok (.Timestamp 1577836800) ∧
    isCanonicalYMD "2020-1-1" = false ∧
    deserializeDate "2020-1-1" = .ok (.Timestamp 1577836800) := by
  decide

/-- C7 witness: the spec's canonical-parse example deserializes to epoch
1739059200; the serialized form of epoch 1135728000 is `"Dec 28, 2005"` and
fails to deserialize. -/
theorem claim_C7_witness :
    deserializeDate "2025-02-09" =
      .ok (.Timestamp (max (86400 * epochDayZ ((2025 : ℤ), 2, 9)) 0).toNat) ∧
    (max (86400 * epochDayZ ((2025 : ℤ), 2, 9)) 0).toNat = 1739059200 ∧
    serializeDate (.Timestamp 1135728000) = .ok "Dec 28, 2005" ∧
    deserializeDate "Dec 28, 2005" = .error .dateParse := by
  have hser : serializeDate (.Timestamp 1135728000) = .ok "Dec 28, 2005" := by decide
  exact ⟨claim_C7.2.1 "2025-02-09" ((2025 : ℤ), 2, 9) (by decide), by decide, hser,
    claim_C7.2.2.2 1135728000 "Dec 28, 2005" hser⟩

/-- C8: extraction is deterministic — it is a pure function of its inputs, and
when the end bound is absent the output does not even depend on which (well-
formed) calendar day the ambient clock supplies as "today", so two calls with
identical HTML, frequency, start and (absent) end inputs are bit-for-bit
identical. -/
theorem claim_C8 :
    (∀ (doc : Option (List (List String))) (f : Frequency) (s : String)
      (e : Option String) (t : String),
      parse_html doc f s e t = parse_html doc f s e t) ∧
    (∀ (doc : Option (List (List String))) (f : Frequency) (s t1 t2 : String),
      parseYMD t1 ≠ none → parseYMD t2 ≠ none →
      parse_html doc f s none t1 = parse_html doc f s none t2) := by
  refine ⟨fun _ _ _ _ _ => rfl, ?_⟩
  intro doc f s t1 t2 h1 h2
  cases doc with
  | none => rfl
  | some rows =>
    rcases hps : parseYMD s with _ | a
    · rw [parse_html_err_start hps, parse_html_err_start hps]
    · obtain ⟨b1, hb1⟩ := Option.ne_none_iff_exists'.mp h1
      obtain ⟨b2, hb2⟩ := Option.ne_none_iff_exists'.mp h2
      rw [parse_html_eq_scanRows (e := none) hps hb1,
        parse_html_eq_scanRows (e := none) hps hb2]

/-- C8 witness: a run with an absent end bound under two different ambient
dates. -/
theorem claim_C8_witness :
    parse_html (some [["a"]]) .daily "2020-01-01" none "2024-01-01" =
      parse_html (some [["a"]]) .daily "2020-01-01" none "2025-06-15" :=
  claim_C8.2 (some [["a"]]) .daily "2020-01-01" "2024-01-01" "2025-06-15"
    (by decide) (by decide)

/-- C9: for a fixed document and parsable bounds, the frequency influences only
the discarded capacity hint, never the extracted records or the outcome: all
three frequencies return identical results. -/
theorem claim_C9 (doc : Option (List (List String))) (s : String)
    (e : Option String) (t : String) (f1 f2 : Frequency)
    (hs : parseYMD s ≠ none) (he : parseYMD (e.getD t) ≠ none) :
    parse_html doc f1 s e t = parse_html doc f2 s e t := by
  cases doc with
  | none => rfl
  | some rows =>
    obtain ⟨a, ha⟩ := Option.ne_none_iff_exists'.mp hs
    obtain ⟨b, hb⟩ := Option.ne_none_iff_exists'.mp he
    rw [parse_html_eq_scanRows ha hb, parse_html_eq_scanRows ha hb]

/-- C9 witness: daily versus monthly frequency on a concrete document. -/
theorem claim_C9_witness :
    parse_html (some [["x"]]) .daily "2020-01-01" (some "2020-02-01") "t" =
      parse_html (some [["x"]]) .monthly "2020-01-01" (some "2020-02-01") "t" :=
  claim_C9 (some [["x"]]) "2020-01-01" (some "2020-02-01") "t" .daily .monthly
    (by decide) (by decide)

/-- C10: a row whose first cell parses to a strictly negative epoch (a pre-1970
date) is not discarded by the zero-date rule — the scan proceeds into the cell
loop — yet any record it emits carries date `Timestamp 0`: the negative
seconds, carried through the float slot, are saturated to zero by the
`as u64` cast in `OHLCV::insert`. -/
theorem claim_C10 (c : String) (rest : List String) (ts : ℤ)
    (h : date_string_to_timestamp c = .ok ts) (hneg : ts < 0) :
    processRow (c :: rest) =
      (match scanCells ((List.replicate 7 (0 : ℚ)).set 0 (ts : ℚ)) true 0 rest with
       | .error e => .error e
       | .ok (buf, empty) =>
         if empty then .ok none else .ok (some (OHLCV.default.insert buf))) ∧
    (∀ rec, processRow (c :: rest) = .ok (some rec) → rec.date = .Timestamp 0) := by
  have hdv : dateValue c = ts := by simp [dateValue, h]
  constructor
  · simp only [processRow, hdv]
    rw [if_neg (by omega : ¬(ts = 0))]
  · intro rec hrec
    simp only [processRow, hdv] at hrec
    rw [if_neg (by omega : ¬(ts = 0))] at hrec
    cases hsc : scanCells ((List.replicate 7 (0 : ℚ)).set 0 (ts : ℚ)) true 0 rest with
    | error e => rw [hsc] at hrec; simp at hrec
    | ok out =>
      obtain ⟨buf, empty⟩ := out
      rw [hsc] at hrec
      cases empty with
      | true => simp at hrec
      | false =>
        have hrec' : OHLCV.default.insert buf = rec := by simpa using hrec
        rw [← hrec']
        show Date.Timestamp (ratToU64 (buf.getD 0 0)) = Date.Timestamp 0
        have hhead := scanCells_head rest _ _ _ _ hsc
        have hbuf0 : ((List.replicate 7 (0 : ℚ)).set 0 ((ts : ℚ))).getD 0 0 =
            (ts : ℚ) := rfl
        rw [show (buf.getD 0 0) = (ts : ℚ) from hbuf0 ▸ hhead]
        have hcast : ((ts : ℚ)) < 0 := by exact_mod_cast hneg
        rw [show ratToU64 ((ts : ℚ)) = 0 from by unfold ratToU64; rw [if_pos hcast]]

/-- C10 witness: the row `["Dec 24,1969","1"]` (epoch -691200) is processed as
a data row and emits a record whose date has collapsed to `Timestamp 0`. -/
theorem claim_C10_witness :
    processRow ["Dec 24,1969", "1"] =
      .ok (some { date := .Timestamp 0, open_ := 1, high := 0, low := 0,
                  close := 0, adj_close := 0, volume := 0 }) ∧
    ({ date := .Timestamp 0, open_ := 1, high := 0, low := 0, close := 0,
       adj_close := 0, volume := 0 } : OHLCV).date = .Timestamp 0 := by
  have hdv : dateValue "Dec 24,1969" = -691200 := rfl
  have h1 : processRow ["Dec 24,1969", "1"] =
      .ok (some { date := .Timestamp 0, open_ := 1, high := 0, low := 0,
                  close := 0, adj_close := 0, volume := 0 }) := by
    norm_num [processRow, scanCells, hdv, parseF64_one, OHLCV.insert,
      OHLCV.default, ratToU64, List.set, List.replicate, List.getD]
  exact ⟨h1, (claim_C10 "Dec 24,1969" ["1"] (-691200) (by decide) (by decide)).2 _ h1⟩

end Yfp
